import Mathlib

set_option linter.dupNamespace false

/-!
Verification of the pra-lang interpreter (lexer + evaluator) against its
specification.  The definitions below are a shallow embedding of the Rust
sources: `src/src/lib.rs` (the evaluator: `eval`, `eval_if`, `eval_block`,
`eval_function`, `execute`) and `src/src/lexer.rs` (the token scanner, of
which only the string-literal path is needed here).

The repository's final `ast.rs` (the one matched by `lib.rs`, with `Expr`
carrying a `position` and an `expression_type`, and with the three-way
`Else` enum) is not among the checked-in sources; its shape is reconstructed
from the constructors and field accesses that `lib.rs` itself performs,
together with the spec's data-model section.

Conventions of the embedding:
- Rust `i32` is modelled as `Int`; `+ - *` reduce modulo 2^32 into
  `[-2^31, 2^31)` (release-profile wrapping; debug builds would abort on
  overflow, which no claim here touches), while `/` and `%` abort (Rust
  division panic) on a zero divisor or on `-2^31 / -1`, which Rust does in
  every build profile.
- `HashMap` environments are association lists in which an insert prepends
  and a lookup takes the first (i.e. most recent) match — extensionally the
  overwrite behaviour of `HashMap::insert` / `HashMap::get`.
- `&mut` parameters are threaded explicitly: every evaluator function
  returns its (possibly updated) `globals` and `locals` next to the
  outcome, including on the error path, mirroring maps that outlive a
  returned `Err`.
- Recursion through user-defined function calls is not structurally
  bounded, so every evaluator function takes a fuel parameter, decremented
  on each call edge; exhausted fuel yields the artificial outcome
  `Res.oog`, distinct from every source-level outcome.
- Rust panics (aborts) are the outcome `Res.abort`.
- Native (`buildin`) functions are modelled as pure `ArgList → VarVal`
  maps: in the source they are `FnMut` closures receiving only the
  evaluated argument list, so they cannot reach the environments.
- Byte offsets in the lexer are modelled as character indices over a
  `List Char` source (identical for ASCII inputs).
-/

namespace PraLang

/-- Runtime error kinds, from `RuntimeErrorType` in `src/src/lib.rs`. -/
inductive RuntimeErrorType where
  | UndefinedVariable (name : String)
  | UndefinedFunction (name : String)
  | InvalidOpcode
  | InvalidOperands
  | BooleanExpected
  | WrongNumberOfArguments (name : String)
  | NoMain
deriving DecidableEq

/-- A runtime error with its source position, from `RuntimeError` in
`src/src/lib.rs`. -/
structure RuntimeError where
  position : Nat
  error_type : RuntimeErrorType
deriving DecidableEq

/-- Runtime values, from `VarVal` in `src/src/ast.rs`: each typed variant
allows an absent (`none`) payload used as an uninitialised placeholder. -/
inductive VarVal where
  | I32 (v : Option Int)
  | BOOL (v : Option Bool)
  | STRING (v : Option String)
  | UNIT
deriving DecidableEq

/-- The thirteen binary operators, from `Opcode` in `src/src/ast.rs`. -/
inductive Opcode where
  | Mul
  | Div
  | Mod
  | Add
  | Sub
  | Eq
  | Ne
  | Lt
  | Le
  | Gt
  | Ge
  | And
  | Or
deriving DecidableEq

/-- A named variable slot, from `Variable` in `src/src/ast.rs`. -/
structure Variable where
  ident : String
  value : VarVal
deriving DecidableEq

/-- An environment (`HashMap<String, Variable>`): an association list where
an insert prepends, so lookup of the first match realises overwriting. -/
abbrev Env := List (String × Variable)

/-- `HashMap::get`: first (most recently inserted) binding of the key. -/
def envGet (e : Env) (k : String) : Option Variable :=
  match e with
  | [] => none
  | (k', v) :: rest => if k' = k then some v else envGet rest k

/-- `HashMap::insert`: prepend, shadowing any earlier binding of the key. -/
def envInsert (e : Env) (k : String) (v : Variable) : Env :=
  (k, v) :: e

/-- The evaluated-argument list, from `ArgList` in `src/src/ast.rs`. -/
structure ArgList where
  args : List VarVal
deriving DecidableEq

mutual
/-- An expression: a source position plus a shape, mirroring the `Expr`
struct with fields `position` and `expression_type` that `lib.rs` matches
on. -/
inductive Expr where
  | mk (position : Nat) (expression_type : ExprType)

/-- The five expression shapes matched by `eval` in `src/src/lib.rs`. -/
inductive ExprType where
  | Function (name : String) (args : List Expr)
  | Value (v : VarVal)
  | Op (lhs : Expr) (opc : Opcode) (rhs : Expr)
  | Var (id : String)
  | If (i : If)

/-- An `if`-expression: condition, then-block and else part, mirroring the
fields `condition`, `if_block`, `else_part` read by `eval_if`. -/
inductive If where
  | mk (condition : Expr) (if_block : Block) (else_part : Else)

/-- The three-way else part matched by `eval_if`: a block, a nested `if`
(else-if chaining), or nothing. -/
inductive Else where
  | Else (b : Block)
  | ElseIf (i : If)
  | None

/-- A block: statements followed by one trailing expression, from `Block`
in `src/src/ast.rs`. -/
inductive Block where
  | mk (statements : List Stmt) (expr : Expr)

/-- A statement: a bare expression or an assignment, from `Stmt` in
`src/src/ast.rs`. -/
inductive Stmt where
  | Expr (e : Expr)
  | Asgn (id : String) (e : Expr)
end

/-- The source position of an expression. -/
def Expr.position : Expr → Nat
  | .mk p _ => p

/-- The shape of an expression. -/
def Expr.expression_type : Expr → ExprType
  | .mk _ t => t

/-- A user-defined function, from `Function` in the final `ast.rs` as used
by `lib.rs`: parameter placeholders, name, body and position. -/
structure Function where
  arguments : List Variable
  name : String
  block : Block
  position : Nat

/-- A program: the name-keyed function map, from `Program` in
`src/src/ast.rs`, as an association list. -/
structure Program where
  functions : List (String × Function)

/-- `program.functions.get(name)`. -/
def progGet (p : Program) (name : String) : Option Function :=
  match p.functions with
  | fs => go fs
where
  go : List (String × Function) → Option Function
    | [] => none
    | (k, f) :: rest => if k = name then some f else go rest

/-- The native/builtin table (`Buildins` in `src/src/lib.rs`): name-keyed
host callables over the evaluated argument list. -/
abbrev Buildins := List (String × (ArgList → VarVal))

/-- `buildins.get_mut(name)`. -/
def buildinsGet (b : Buildins) (name : String) : Option (ArgList → VarVal) :=
  match b with
  | [] => none
  | (k, f) :: rest => if k = name then some f else buildinsGet rest name

/-- Outcome of an evaluation step: a value, a runtime error, an abort
(Rust panic), or exhausted fuel (`oog`, a model artefact only). -/
inductive Res (α : Type) where
  | ok (a : α)
  | err (e : RuntimeError)
  | abort
  | oog
deriving DecidableEq

/-- Sequencing in the style of Rust `?`, threading the two environments:
on `ok` continue, otherwise propagate the outcome with the environments as
they stand. -/
def andThen {α β : Type} :
    Res α × Env × Env → (α → Env → Env → Res β × Env × Env) →
    Res β × Env × Env
  | (.ok a, g, l), f => f a g l
  | (.err e, g, l), _ => (.err e, g, l)
  | (.abort, g, l), _ => (.abort, g, l)
  | (.oog, g, l), _ => (.oog, g, l)

/-- The least `i32`, `-2^31`. -/
def i32min : Int := -(2 ^ 31)

/-- Reduce an integer into the `i32` range `[-2^31, 2^31)` (two's
complement wrap-around). -/
def wrap32 (n : Int) : Int := (n + 2 ^ 31) % 2 ^ 32 - 2 ^ 31

/-- The binary-operator dispatch of the `ExprType::Op` arm of `eval` in
`src/src/lib.rs`: three rows of `if let` on the operand pair (inhabited
int/int, bool/bool, string/string), an `InvalidOpcode` fallback inside each
row, and an `InvalidOperands` fallback when no row matches.  Rust `i32`
division and remainder abort on a zero divisor and on `-2^31` with `-1`. -/
def evalOp (l : VarVal) (opc : Opcode) (r : VarVal) (position : Nat) :
    Res VarVal :=
  match l, r with
  | .I32 (some l), .I32 (some r) =>
    match opc with
    | .Add => .ok (.I32 (some (wrap32 (l + r))))
    | .Sub => .ok (.I32 (some (wrap32 (l - r))))
    | .Mul => .ok (.I32 (some (wrap32 (l * r))))
    | .Div =>
      if r = 0 ∨ (l = i32min ∧ r = -1) then .abort
      else .ok (.I32 (some (l.tdiv r)))
    | .Mod =>
      if r = 0 ∨ (l = i32min ∧ r = -1) then .abort
      else .ok (.I32 (some (l.tmod r)))
    | .Eq => .ok (.BOOL (some (decide (l = r))))
    | .Ne => .ok (.BOOL (some (decide (l ≠ r))))
    | .Lt => .ok (.BOOL (some (decide (l < r))))
    | .Le => .ok (.BOOL (some (decide (l ≤ r))))
    | .Gt => .ok (.BOOL (some (decide (l > r))))
    | .Ge => .ok (.BOOL (some (decide (l ≥ r))))
    | _ => .err ⟨position, .InvalidOpcode⟩
  | .BOOL (some l), .BOOL (some r) =>
    match opc with
    | .Eq => .ok (.BOOL (some (decide (l = r))))
    | .Ne => .ok (.BOOL (some (decide (l ≠ r))))
    | .And => .ok (.BOOL (some (l && r)))
    | .Or => .ok (.BOOL (some (l || r)))
    | _ => .err ⟨position, .InvalidOpcode⟩
  | .STRING (some l), .STRING (some r) =>
    match opc with
    | .Eq => .ok (.BOOL (some (decide (l = r))))
    | .Ne => .ok (.BOOL (some (decide (l ≠ r))))
    | _ => .err ⟨position, .InvalidOpcode⟩
  | _, _ => .err ⟨position, .InvalidOperands⟩

/-- Argument binding of `eval_function` in `src/src/lib.rs`: each declared
parameter, its placeholder value replaced by the evaluated argument, is
inserted into a new locals map, in declaration order. -/
def bindArgs (params : List Variable) (args : List VarVal) : Env :=
  (params.zip args).foldl
    (fun env pv => envInsert env pv.1.ident ⟨pv.1.ident, pv.2⟩) []

mutual
/-- `eval` from `src/src/lib.rs`: structural dispatch over the expression
shape.  The fuel argument is a model artefact bounding call depth. -/
def eval : Nat → Program → Buildins → Expr → Env → Env →
    Res VarVal × Env × Env
  | 0, _, _, _, g, l => (.oog, g, l)
  | fuel + 1, program, buildins, .mk position et, g, l =>
    match et with
    | .Function name expr_list =>
      andThen (evalArgs fuel program buildins expr_list g l) fun args g l =>
        match buildinsGet buildins name with
        | some f => (.ok (f ⟨args⟩), g, l)
        | none =>
          match progGet program name with
          | some f =>
            match eval_function fuel program buildins f ⟨args⟩ g with
            | (r, g) => (r, g, l)
          | none => (.err ⟨position, .UndefinedFunction name⟩, g, l)
    | .Value n => (.ok n, g, l)
    | .Op lhs opc rhs =>
      andThen (eval fuel program buildins lhs g l) fun lv g l =>
        andThen (eval fuel program buildins rhs g l) fun rv g l =>
          (evalOp lv opc rv position, g, l)
    | .Var id =>
      match envGet g id with
      | some v => (.ok v.value, g, l)
      | none =>
        match envGet l id with
        | some v => (.ok v.value, g, l)
        | none => (.err ⟨position, .UndefinedVariable id⟩, g, l)
    | .If if_expr => eval_if fuel program buildins if_expr g l position

/-- The left-to-right evaluation of a call's argument expressions (the
`map`/`collect` with `?` in the `ExprType::Function` arm): stop at the
first non-`ok` outcome. -/
def evalArgs : Nat → Program → Buildins → List Expr → Env → Env →
    Res (List VarVal) × Env × Env
  | 0, _, _, _, g, l => (.oog, g, l)
  | _ + 1, _, _, [], g, l => (.ok [], g, l)
  | fuel + 1, program, buildins, e :: rest, g, l =>
    andThen (eval fuel program buildins e g l) fun v g l =>
      andThen (evalArgs fuel program buildins rest g l) fun vs g l =>
        (.ok (v :: vs), g, l)

/-- `eval_if` from `src/src/lib.rs`.  The `position` parameter is the
enclosing expression's position; note that it is passed unchanged into a
nested else-if. -/
def eval_if : Nat → Program → Buildins → If → Env → Env → Nat →
    Res VarVal × Env × Env
  | 0, _, _, _, g, l, _ => (.oog, g, l)
  | fuel + 1, program, buildins, .mk condition if_block else_part, g, l,
      position =>
    andThen (eval fuel program buildins condition g l) fun predicate g l =>
      match predicate with
      | .BOOL (some v) =>
        if v then eval_block fuel program buildins if_block g l
        else
          match else_part with
          | .Else block => eval_block fuel program buildins block g l
          | .ElseIf next_if =>
            eval_if fuel program buildins next_if g l position
          | .None => (.ok .UNIT, g, l)
      | _ => (.err ⟨position, .BooleanExpected⟩, g, l)

/-- `eval_block` from `src/src/lib.rs`: the statements in order, then the
trailing expression in the mutated environment. -/
def eval_block : Nat → Program → Buildins → Block → Env → Env →
    Res VarVal × Env × Env
  | 0, _, _, _, g, l => (.oog, g, l)
  | fuel + 1, program, buildins, .mk statements expr, g, l =>
    andThen (eval_stmts fuel program buildins statements g l) fun _ g l =>
      eval fuel program buildins expr g l

/-- The statement loop of `eval_block`: a bare expression is evaluated for
effect; an assignment evaluates its right-hand side and then inserts the
result into `locals`. -/
def eval_stmts : Nat → Program → Buildins → List Stmt → Env → Env →
    Res Unit × Env × Env
  | 0, _, _, _, g, l => (.oog, g, l)
  | _ + 1, _, _, [], g, l => (.ok (), g, l)
  | fuel + 1, program, buildins, stmt :: rest, g, l =>
    match stmt with
    | .Expr e =>
      andThen (eval fuel program buildins e g l) fun _ g l =>
        eval_stmts fuel program buildins rest g l
    | .Asgn id e =>
      andThen (eval fuel program buildins e g l) fun res g l =>
        eval_stmts fuel program buildins rest g (envInsert l id ⟨id, res⟩)

/-- `eval_function` from `src/src/lib.rs`: arity check against the declared
parameters, positional binding into a fresh locals map, then the body
block; the locals map is discarded on return. -/
def eval_function : Nat → Program → Buildins → Function → ArgList → Env →
    Res VarVal × Env
  | 0, _, _, _, _, g => (.oog, g)
  | fuel + 1, program, buildins, function, arglist, g =>
    if arglist.args.length ≠ function.arguments.length then
      (.err ⟨function.position, .WrongNumberOfArguments function.name⟩, g)
    else
      match eval_block fuel program buildins function.block g
          (bindArgs function.arguments arglist.args) with
      | (r, g, _) => (r, g)
end

/-- `execute` from `src/src/lib.rs`: look up `"main"`, invoke it with zero
arguments, or fail with `NoMain` at position 0. -/
def execute (fuel : Nat) (program : Program) (g : Env)
    (buildins : Buildins) : Res VarVal × Env :=
  match progGet program "main" with
  | some main => eval_function fuel program buildins main ⟨[]⟩ g
  | none => (.err ⟨0, .NoMain⟩, g)

/-- Whether a `Res` outcome is a successful value. -/
def Res.isOk {α : Type} : Res α → Bool
  | .ok _ => true
  | _ => false

/-- Whether an outcome is a successful inhabited integer value. -/
def isOkI32 (r : Res VarVal) : Bool :=
  match r with
  | .ok (.I32 (some _)) => true
  | _ => false

/-- Whether an outcome is a successful inhabited boolean value. -/
def isOkBool (r : Res VarVal) : Bool :=
  match r with
  | .ok (.BOOL (some _)) => true
  | _ => false

/-- The four value kinds, from `DataType` in `src/src/ast.rs`. -/
inductive DataType where
  | I32
  | BOOL
  | STRING
  | UNIT
deriving DecidableEq

/-- The kind tag of a runtime value. -/
def VarVal.dataType : VarVal → DataType
  | .I32 _ => .I32
  | .BOOL _ => .BOOL
  | .STRING _ => .STRING
  | .UNIT => .UNIT

/-- Whether a value carries an actual payload (is neither unit nor an
uninitialised "absent" placeholder). -/
def VarVal.isInhabited : VarVal → Bool
  | .I32 (some _) => true
  | .BOOL (some _) => true
  | .STRING (some _) => true
  | _ => false

/-- Whether a value is the unit value or an absent placeholder. -/
def VarVal.isAbsentOrUnit : VarVal → Bool
  | .I32 none => true
  | .BOOL none => true
  | .STRING none => true
  | .UNIT => true
  | _ => false

/-- Whether a value is an inhabited boolean (the shape `eval_if` accepts
for a condition). -/
def VarVal.isBoolSome : VarVal → Bool
  | .BOOL (some _) => true
  | _ => false

/-- The token type of `src/src/lexer.rs` (`Token`); string payloads stand
for the borrowed source slices. -/
inductive Token where
  | Ident (s : String)
  | StringValue (s : String)
  | DecLiteral (n : Int)
  | If
  | Else
  | Function
  | I32
  | Boolean
  | String
  | True
  | False
  | Bang
  | BangEqual
  | Colon
  | Comma
  | Equal
  | EqualEqual
  | ForwardSlash
  | Greater
  | GreaterEqual
  | Less
  | LessEqual
  | Minus
  | Plus
  | Semi
  | Star
  | Percent
  | AmpAmp
  | PipePipe
  | LParen
  | RParen
  | LBrace
  | RBrace
deriving DecidableEq

namespace Lexer

/-- The scan loop of `Lexer::take_until` in `src/src/lexer.rs`, over the
remaining characters: consume until the predicate matches the lookahead,
returning the end position and the consumed slice; when input runs out the
end position is the source length (`pos` has then advanced to it). -/
def take_until_from : List Char → Nat → (Char → Bool) → Nat × List Char
  | [], pos, _ => (pos, [])
  | ch :: rest, pos, terminate =>
    if terminate ch then (pos, [])
    else
      match take_until_from rest (pos + 1) terminate with
      | (e, s) => (e, ch :: s)

/-- `Lexer::take_until` as called with the slice start equal to the current
scan position (the call pattern of `Lexer::string`, where the opening quote
at `start - 1` is already consumed). -/
def take_until (src : List Char) (start : Nat) (terminate : Char → Bool) :
    Nat × List Char :=
  take_until_from (src.drop start) start terminate

/-- `Lexer::string` from `src/src/lexer.rs`: scan from one past the opening
quote at `start` until a closing quote (no escape processing) and return
`(start, StringValue(content), end + 1)`.  The final `bump` over the
closing quote only advances the lexer and does not affect the returned
triple, so it is omitted here. -/
def string (src : List Char) (start : Nat) : Nat × Token × Nat :=
  match take_until src (start + 1) (fun ch => ch == '"') with
  | (e, content) => (start, Token.StringValue (String.mk content), e + 1)

end Lexer

/-- The condition-true `if`-expression `if true { 1 } else { 2 }`. -/
def exIf1 : Expr :=
  .mk 0 (.If (.mk (.mk 3 (.Value (.BOOL (some true))))
    (.mk [] (.mk 10 (.Value (.I32 (some 1)))))
    (.Else (.mk [] (.mk 21 (.Value (.I32 (some 2))))))))

/-- The else-if chain `if false { 1 } else if true { 2 } else { 3 }`. -/
def exIf2 : Expr :=
  .mk 0 (.If (.mk (.mk 3 (.Value (.BOOL (some false))))
    (.mk [] (.mk 11 (.Value (.I32 (some 1)))))
    (.ElseIf (.mk (.mk 25 (.Value (.BOOL (some true))))
      (.mk [] (.mk 32 (.Value (.I32 (some 2)))))
      (.Else (.mk [] (.mk 43 (.Value (.I32 (some 3))))))))))

/-- The literal `false` operand used to exercise `&&` without
short-circuiting. -/
def c4Lhs : Expr := .mk 0 (.Value (.BOOL (some false)))

/-- An undefined-variable operand whose evaluation fails. -/
def c4Rhs : Expr := .mk 9 (.Var "missing")

/-- C1: variable references consult `globals` first, fall back to `locals`,
and fail with `UndefinedVariable(name)` exactly when the name is bound in
neither map; in particular a name bound in both maps reads the global's
value. -/
theorem c1_variable_lookup (fuel : Nat) (program : Program)
    (buildins : Buildins) (pos : Nat) (id : String) (g l : Env) :
    (∀ v, envGet g id = some v →
      eval (fuel + 1) program buildins (.mk pos (.Var id)) g l
        = (.ok v.value, g, l)) ∧
    (envGet g id = none → ∀ v, envGet l id = some v →
      eval (fuel + 1) program buildins (.mk pos (.Var id)) g l
        = (.ok v.value, g, l)) ∧
    (eval (fuel + 1) program buildins (.mk pos (.Var id)) g l
        = (.err ⟨pos, .UndefinedVariable id⟩, g, l)
      ↔ envGet g id = none ∧ envGet l id = none) := by
  refine ⟨?_, ?_, ?_⟩
  · intro v hv
    simp [eval, hv]
  · intro hg v hv
    simp [eval, hg, hv]
  · constructor
    · intro h
      cases hg : envGet g id with
      | some v => simp [eval, hg] at h
      | none =>
        cases hl : envGet l id with
        | some v => simp [eval, hg, hl] at h
        | none => exact ⟨rfl, rfl⟩
    · rintro ⟨hg, hl⟩
      simp [eval, hg, hl]

/-- Witness for C1: with `x` bound to `1` in globals and to `2` in locals,
reading `x` yields the global value `1`. -/
theorem c1_variable_lookup_witness :
    eval 1 ⟨[]⟩ [] (.mk 0 (.Var "x"))
        [("x", ⟨"x", .I32 (some 1)⟩)] [("x", ⟨"x", .I32 (some 2)⟩)]
      = (.ok (.I32 (some 1)),
         [("x", ⟨"x", .I32 (some 1)⟩)], [("x", ⟨"x", .I32 (some 2)⟩)]) :=
  (c1_variable_lookup 0 ⟨[]⟩ [] 0 "x"
      [("x", ⟨"x", .I32 (some 1)⟩)] [("x", ⟨"x", .I32 (some 2)⟩)]).1
    ⟨"x", .I32 (some 1)⟩ rfl

/-- C4: both operands of every binary operation are evaluated eagerly, the
left strictly before the right — an error from the left operand propagates
untouched, an error from the right operand propagates even when the left
value alone would determine the result (no short-circuit for `&&`/`||`),
and on two successes the operator is applied in the right operand's output
environments. -/
theorem c4_eager_operands (fuel : Nat) (program : Program)
    (buildins : Buildins) (pos : Nat) (lhs rhs : Expr) (opc : Opcode)
    (g l : Env) :
    (∀ e g' l', eval fuel program buildins lhs g l = (.err e, g', l') →
      eval (fuel + 1) program buildins (.mk pos (.Op lhs opc rhs)) g l
        = (.err e, g', l')) ∧
    (∀ v g' l' e g'' l'',
      eval fuel program buildins lhs g l = (.ok v, g', l') →
      eval fuel program buildins rhs g' l' = (.err e, g'', l'') →
      eval (fuel + 1) program buildins (.mk pos (.Op lhs opc rhs)) g l
        = (.err e, g'', l'')) ∧
    (∀ v g' l' w g'' l'',
      eval fuel program buildins lhs g l = (.ok v, g', l') →
      eval fuel program buildins rhs g' l' = (.ok w, g'', l'') →
      eval (fuel + 1) program buildins (.mk pos (.Op lhs opc rhs)) g l
        = (evalOp v opc w pos, g'', l'')) := by
  refine ⟨?_, ?_, ?_⟩
  · intro e g' l' h
    simp [eval, h, andThen]
  · intro v g' l' e g'' l'' h1 h2
    simp [eval, h1, h2, andThen]
  · intro v g' l' w g'' l'' h1 h2
    simp [eval, h1, h2, andThen]

/-- Witness for C4: `false && missing` fails with the right operand's
`UndefinedVariable` error instead of short-circuiting to `false`. -/
theorem c4_eager_operands_witness :
    eval 2 ⟨[]⟩ [] (.mk 0 (.Op c4Lhs .And c4Rhs)) [] []
      = (.err ⟨9, .UndefinedVariable "missing"⟩, [], []) :=
  (c4_eager_operands 1 ⟨[]⟩ [] 0 c4Lhs c4Rhs .And [] []).2.1
    (.BOOL (some false)) [] [] ⟨9, .UndefinedVariable "missing"⟩ [] []
    rfl rfl

/-- C10: a binary operation with a unit or absent (uninitialised
placeholder) operand fails with `InvalidOperands` for every opcode, even
when the type tags agree — never a successful comparison, never
`InvalidOpcode`. -/
theorem c10_absent_operands (l r : VarVal) (opc : Opcode) (pos : Nat)
    (h : l.isAbsentOrUnit = true ∨ r.isAbsentOrUnit = true) :
    evalOp l opc r pos = .err ⟨pos, .InvalidOperands⟩ := by
  rcases l with ⟨_ | a⟩ | ⟨_ | a⟩ | ⟨_ | a⟩ | _ <;>
    rcases r with ⟨_ | b⟩ | ⟨_ | b⟩ | ⟨_ | b⟩ | _ <;>
    simp_all [VarVal.isAbsentOrUnit] <;> rfl

/-- Witness for C10: `unit == unit` is `InvalidOperands`. -/
theorem c10_absent_operands_witness :
    evalOp .UNIT .Eq .UNIT 0 = .err ⟨0, .InvalidOperands⟩ :=
  c10_absent_operands .UNIT .UNIT .Eq 0 (.inl rfl)

/-- C9 counterexample: the claim quantifies over all 32-bit operand pairs
with nonzero divisor, but `-2^31 / -1` (whose truncated quotient `2^31`
is not a 32-bit integer) aborts — Rust panics — instead of yielding the
quotient, and `-2^31 % -1` aborts likewise. -/
theorem c9_min_div_counterexample :
    ((-1 : Int) ≠ 0) ∧
    evalOp (.I32 (some (-2147483648))) .Div (.I32 (some (-1))) 0
      = .abort ∧
    evalOp (.I32 (some (-2147483648))) .Mod (.I32 (some (-1))) 0
      = .abort := by
  refine ⟨by decide, by decide, by decide⟩

/-- C9 (amended): for 32-bit operands with nonzero divisor, excluding the
aborting pair `(-2^31, -1)`, `/` yields the quotient truncated toward zero
(`Int.tdiv`) and `%` the corresponding remainder (`Int.tmod`), which
together satisfy `b * q + r = a`. -/
theorem c9_truncating_division (a b : Int) (pos : Nat)
    (ha : -(2 ^ 31) ≤ a ∧ a < 2 ^ 31) (hb : -(2 ^ 31) ≤ b ∧ b < 2 ^ 31)
    (hb0 : b ≠ 0) (hmin : ¬(a = i32min ∧ b = -1)) :
    evalOp (.I32 (some a)) .Div (.I32 (some b)) pos
        = .ok (.I32 (some (a.tdiv b))) ∧
    evalOp (.I32 (some a)) .Mod (.I32 (some b)) pos
        = .ok (.I32 (some (a.tmod b))) ∧
    b * a.tdiv b + a.tmod b = a := by
  have hcond : ¬(b = 0 ∨ (a = i32min ∧ b = -1)) := by tauto
  refine ⟨?_, ?_, ?_⟩
  · simp [evalOp, hcond]
  · simp [evalOp, hcond]
  · exact Int.tdiv_add_tmod a b

/-- Witness for C9: `7 / 2` evaluates to `3` and `7 % 2` to `1`. -/
theorem c9_truncating_division_witness :
    evalOp (.I32 (some 7)) .Div (.I32 (some 2)) 0 = .ok (.I32 (some 3)) ∧
    evalOp (.I32 (some 7)) .Mod (.I32 (some 2)) 0 = .ok (.I32 (some 1)) := by
  have h := c9_truncating_division 7 2 0 (by decide) (by decide)
    (by decide) (by decide)
  exact ⟨h.1.trans (by decide), h.2.1.trans (by decide)⟩

/-- C2 counterexample: the claim's table promises an int result for every
arithmetic opcode on two ints, but `1 / 0` aborts (Rust division panic):
the outcome is no `ok` value and neither of the two typed errors. -/
theorem c2_div_by_zero_counterexample :
    evalOp (.I32 (some 1)) .Div (.I32 (some 0)) 0 = .abort ∧
    (evalOp (.I32 (some 1)) .Div (.I32 (some 0)) 0).isOk = false ∧
    evalOp (.I32 (some 1)) .Mod (.I32 (some 0)) 0 = .abort := by
  refine ⟨by decide, by decide, by decide⟩

/-- C2 (amended): the result of a binary operation on two successfully
evaluated operands is determined by the runtime type pair and opcode per
the spec's table — two ints admit `+ - * / % == != < <= > >=` (int result
for arithmetic, bool for comparisons), two bools admit `== != && ||`, two
strings admit `== !=`, a well-typed pair with an opcode outside its row
yields `InvalidOpcode`, and any type mismatch yields `InvalidOperands` —
except that `/` and `%` abort (Rust division panic) on a zero right operand
and on `-2^31` with `-1` instead of producing a value.  In particular
`1 == "1"` fails with `InvalidOperands` and `true && false` evaluates to
`false`. -/
theorem c2_op_table (a b : Int) (x y : Bool) (s t : String) (pos : Nat) :
    (isOkI32 (evalOp (.I32 (some a)) .Add (.I32 (some b)) pos) = true ∧
     isOkI32 (evalOp (.I32 (some a)) .Sub (.I32 (some b)) pos) = true ∧
     isOkI32 (evalOp (.I32 (some a)) .Mul (.I32 (some b)) pos) = true) ∧
    (b ≠ 0 → ¬(a = i32min ∧ b = -1) →
     isOkI32 (evalOp (.I32 (some a)) .Div (.I32 (some b)) pos) = true ∧
     isOkI32 (evalOp (.I32 (some a)) .Mod (.I32 (some b)) pos) = true) ∧
    (b = 0 ∨ (a = i32min ∧ b = -1) →
     evalOp (.I32 (some a)) .Div (.I32 (some b)) pos = .abort ∧
     evalOp (.I32 (some a)) .Mod (.I32 (some b)) pos = .abort) ∧
    (isOkBool (evalOp (.I32 (some a)) .Eq (.I32 (some b)) pos) = true ∧
     isOkBool (evalOp (.I32 (some a)) .Ne (.I32 (some b)) pos) = true ∧
     isOkBool (evalOp (.I32 (some a)) .Lt (.I32 (some b)) pos) = true ∧
     isOkBool (evalOp (.I32 (some a)) .Le (.I32 (some b)) pos) = true ∧
     isOkBool (evalOp (.I32 (some a)) .Gt (.I32 (some b)) pos) = true ∧
     isOkBool (evalOp (.I32 (some a)) .Ge (.I32 (some b)) pos) = true) ∧
    (∀ opc, opc = .And ∨ opc = .Or →
     evalOp (.I32 (some a)) opc (.I32 (some b)) pos
       = .err ⟨pos, .InvalidOpcode⟩) ∧
    (isOkBool (evalOp (.BOOL (some x)) .Eq (.BOOL (some y)) pos) = true ∧
     isOkBool (evalOp (.BOOL (some x)) .Ne (.BOOL (some y)) pos) = true ∧
     evalOp (.BOOL (some x)) .And (.BOOL (some y)) pos
       = .ok (.BOOL (some (x && y))) ∧
     evalOp (.BOOL (some x)) .Or (.BOOL (some y)) pos
       = .ok (.BOOL (some (x || y)))) ∧
    (∀ opc, opc ≠ .Eq → opc ≠ .Ne → opc ≠ .And → opc ≠ .Or →
     evalOp (.BOOL (some x)) opc (.BOOL (some y)) pos
       = .err ⟨pos, .InvalidOpcode⟩) ∧
    (isOkBool (evalOp (.STRING (some s)) .Eq (.STRING (some t)) pos) = true ∧
     isOkBool (evalOp (.STRING (some s)) .Ne (.STRING (some t)) pos) = true) ∧
    (∀ opc, opc ≠ .Eq → opc ≠ .Ne →
     evalOp (.STRING (some s)) opc (.STRING (some t)) pos
       = .err ⟨pos, .InvalidOpcode⟩) ∧
    (∀ (l r : VarVal) (opc : Opcode), l.isInhabited = true →
     r.isInhabited = true → l.dataType ≠ r.dataType →
     evalOp l opc r pos = .err ⟨pos, .InvalidOperands⟩) ∧
    evalOp (.I32 (some 1)) .Eq (.STRING (some "1")) pos
      = .err ⟨pos, .InvalidOperands⟩ ∧
    evalOp (.BOOL (some true)) .And (.BOOL (some false)) pos
      = .ok (.BOOL (some false)) := by
  refine ⟨⟨rfl, rfl, rfl⟩, ?_, ?_, ⟨rfl, rfl, rfl, rfl, rfl, rfl⟩, ?_,
    ⟨rfl, rfl, rfl, rfl⟩, ?_, ⟨rfl, rfl⟩, ?_, ?_, rfl, rfl⟩
  · intro hb0 hmin
    have hcond : ¬(b = 0 ∨ (a = i32min ∧ b = -1)) := by tauto
    constructor <;> simp [evalOp, isOkI32, hcond]
  · intro hcond
    constructor <;> simp [evalOp, hcond]
  · rintro opc (rfl | rfl) <;> rfl
  · intro opc h1 h2 h3 h4
    cases opc <;> simp_all <;> rfl
  · intro opc h1 h2
    cases opc <;> simp_all <;> rfl
  · intro l r opc hl hr hne
    rcases l with ⟨_ | va⟩ | ⟨_ | va⟩ | ⟨_ | va⟩ | _ <;>
      rcases r with ⟨_ | vb⟩ | ⟨_ | vb⟩ | ⟨_ | vb⟩ | _ <;>
      simp_all [VarVal.isInhabited, VarVal.dataType] <;> rfl

/-- Witness for C2: the non-aborting division row at `7 / 2`. -/
theorem c2_op_table_witness :
    isOkI32 (evalOp (.I32 (some 7)) .Div (.I32 (some 2)) 0) = true ∧
    isOkI32 (evalOp (.I32 (some 7)) .Mod (.I32 (some 2)) 0) = true :=
  (c2_op_table 7 2 true false "a" "b" 0).2.1 (by decide) (by decide)

/-- C6: an `if`-expression first evaluates its condition, which must be an
inhabited boolean (else `BooleanExpected`); on `true` the if-block is
evaluated, on `false` the else branch (a block, a nested `if` for else-if
chaining, or — when wholly absent — the unit value); concretely,
`if true { 1 } else { 2 }` evaluates to `1` and
`if false { 1 } else if true { 2 } else { 3 }` evaluates to `2`. -/
theorem c6_if_evaluation (fuel : Nat) (program : Program)
    (buildins : Buildins) (pos : Nat) (cond : Expr) (blk : Block)
    (els : Else) (g l : Env) :
    (∀ g' l',
      eval fuel program buildins cond g l = (.ok (.BOOL (some true)), g', l') →
      eval_if (fuel + 1) program buildins (.mk cond blk els) g l pos
        = eval_block fuel program buildins blk g' l') ∧
    (∀ g' l' b, els = .Else b →
      eval fuel program buildins cond g l = (.ok (.BOOL (some false)), g', l') →
      eval_if (fuel + 1) program buildins (.mk cond blk els) g l pos
        = eval_block fuel program buildins b g' l') ∧
    (∀ g' l' i, els = .ElseIf i →
      eval fuel program buildins cond g l = (.ok (.BOOL (some false)), g', l') →
      eval_if (fuel + 1) program buildins (.mk cond blk els) g l pos
        = eval_if fuel program buildins i g' l' pos) ∧
    (∀ g' l', els = .None →
      eval fuel program buildins cond g l = (.ok (.BOOL (some false)), g', l') →
      eval_if (fuel + 1) program buildins (.mk cond blk els) g l pos
        = (.ok .UNIT, g', l')) ∧
    (∀ v g' l',
      eval fuel program buildins cond g l = (.ok v, g', l') →
      v.isBoolSome = false →
      eval_if (fuel + 1) program buildins (.mk cond blk els) g l pos
        = (.err ⟨pos, .BooleanExpected⟩, g', l')) ∧
    eval 9 ⟨[]⟩ [] exIf1 [] [] = (.ok (.I32 (some 1)), [], []) ∧
    eval 9 ⟨[]⟩ [] exIf2 [] [] = (.ok (.I32 (some 2)), [], []) := by
  refine ⟨?_, ?_, ?_, ?_, ?_, by decide, by decide⟩
  · intro g' l' h
    simp [eval_if, h, andThen]
  · rintro g' l' b rfl h
    simp [eval_if, h, andThen]
  · rintro g' l' i rfl h
    simp [eval_if, h, andThen]
  · rintro g' l' rfl h
    simp [eval_if, h, andThen]
  · intro v g' l' h hv
    rcases v with ⟨_ | vb⟩ | ⟨_ | vb⟩ | ⟨_ | vb⟩ | _ <;>
      simp_all [VarVal.isBoolSome, eval_if, andThen]

/-- Witness for C6: a non-boolean condition (`if 1 { ... }`) fails with
`BooleanExpected` at the `if`-expression's position. -/
theorem c6_if_evaluation_witness :
    eval_if 2 ⟨[]⟩ []
        (.mk (.mk 3 (.Value (.I32 (some 1))))
          (.mk [] (.mk 7 (.Value (.I32 (some 1))))) .None) [] [] 0
      = (.err ⟨0, .BooleanExpected⟩, [], []) :=
  (c6_if_evaluation 1 ⟨[]⟩ [] 0 (.mk 3 (.Value (.I32 (some 1))))
      (.mk [] (.mk 7 (.Value (.I32 (some 1))))) .None [] []).2.2.2.2.1
    (.I32 (some 1)) [] [] rfl rfl

/-- C7: `execute` resolves `"main"` in the program's function map: absence
is the `NoMain` error at position 0; presence invokes exactly `main` with
an empty argument list — so a `main` declaring parameters fails the arity
check, and a parameterless `main` runs its body in a fresh locals map. -/
theorem c7_entry_main (fuel : Nat) (program : Program) (buildins : Buildins)
    (g : Env) :
    (progGet program "main" = none →
      execute fuel program g buildins = (.err ⟨0, .NoMain⟩, g)) ∧
    (∀ mainF, progGet program "main" = some mainF →
      execute fuel program g buildins
        = eval_function fuel program buildins mainF ⟨[]⟩ g) ∧
    (∀ mainF, progGet program "main" = some mainF →
      mainF.arguments ≠ [] →
      execute (fuel + 1) program g buildins
        = (.err ⟨mainF.position, .WrongNumberOfArguments mainF.name⟩, g)) ∧
    (∀ mainF, progGet program "main" = some mainF →
      mainF.arguments = [] →
      execute (fuel + 1) program g buildins
        = ((eval_block fuel program buildins mainF.block g []).1,
           (eval_block fuel program buildins mainF.block g []).2.1)) := by
  refine ⟨?_, ?_, ?_, ?_⟩
  · intro h
    simp [execute, h]
  · intro mainF h
    simp [execute, h]
  · intro mainF h hargs
    have hlen : (ArgList.mk []).args.length ≠ mainF.arguments.length := by
      simpa using fun h0 => hargs (List.length_eq_zero.mp h0.symm)
    simp only [execute, h, eval_function, if_pos hlen]
  · intro mainF h hargs
    have hlen : ¬(ArgList.mk []).args.length ≠ mainF.arguments.length := by
      simp [hargs]
    simp only [execute, h, eval_function, if_neg hlen, hargs]
    have hb : bindArgs [] [] = ([] : Env) := rfl
    rw [hb]
    rcases heb : eval_block fuel program buildins mainF.block g [] with ⟨r, g2, l2⟩
    simp

/-- Witness for C7: executing a program with no functions at all fails
with `NoMain` at position 0. -/
theorem c7_entry_main_witness :
    execute 5 ⟨[]⟩ [] [] = (.err ⟨0, .NoMain⟩, []) :=
  (c7_entry_main 5 ⟨[]⟩ [] []).1 rfl

/-- When the terminator never matches, the scan loop consumes the whole
remaining input and reports the position past its last character. -/
theorem take_until_from_no_hit (cs : List Char) (pos : Nat)
    (p : Char → Bool) (h : ∀ c ∈ cs, p c = false) :
    Lexer.take_until_from cs pos p = (pos + cs.length, cs) := by
  induction cs generalizing pos with
  | nil => simp [Lexer.take_until_from]
  | cons c cs ih =>
    have hc : p c = false := h c (List.mem_cons_self c cs)
    have hrest : ∀ c' ∈ cs, p c' = false := fun c' hc' =>
      h c' (List.mem_cons_of_mem c hc')
    simp only [Lexer.take_until_from, hc, Bool.false_eq_true, if_false,
      ih (pos + 1) hrest]
    simp only [Prod.mk.injEq, List.length_cons]
    exact ⟨by omega, trivial⟩

/-- C8 counterexample: on the unterminated literal `"ab` (source length 3)
the emitted token's reported end offset is `4 = length + 1`, one past the
end of the input, not the end of the input itself as the claim's span
wording states. -/
theorem c8_span_counterexample :
    Lexer.string ['\x22', 'a', 'b'] 0
      = (0, Token.StringValue "ab", 4) ∧
    (4 : Nat) ≠ (['\x22', 'a', 'b'] : List Char).length := by
  refine ⟨by decide, by decide⟩

/-- C8 (amended): lexing an unterminated string literal produces no
lexical error — the token is a `StringValue` whose content is all
remaining text after the opening quote, with no escape processing, and
whose reported span runs from the opening quote to one byte past the end
of the input (end offset `length + 1`, the uniform `end + 1` applied as if
a closing quote were present). -/
theorem c8_unterminated_string (src : List Char) (start : Nat)
    (hstart : start < src.length)
    (hno : ∀ c ∈ src.drop (start + 1), c ≠ '\x22') :
    Lexer.string src start
      = (start, Token.StringValue (String.mk (src.drop (start + 1))),
         src.length + 1) := by
  have hfalse : ∀ c ∈ src.drop (start + 1), (c == '\x22') = false :=
    fun c hc => beq_eq_false_iff_ne.mpr (hno c hc)
  simp only [Lexer.string, Lexer.take_until,
    take_until_from_no_hit _ _ _ hfalse, List.length_drop]
  have : start + 1 + (src.length - (start + 1)) = src.length := by omega
  rw [this]

/-- Witness for C8 on the concrete unterminated literal `"ab`. -/
theorem c8_unterminated_string_witness :
    Lexer.string ['\x22', 'a', 'b'] 0
      = (0, Token.StringValue (String.mk (['\x22', 'a', 'b'].drop 1)),
         (['\x22', 'a', 'b'] : List Char).length + 1) :=
  c8_unterminated_string ['\x22', 'a', 'b'] 0 (by decide) (by decide)

/-- Folding the parameter/argument inserts over a fresh map lays the
bindings out in reverse insertion order. -/
theorem bindArgs_eq_reverse (params : List Variable) (args : List VarVal) :
    bindArgs params args
      = ((params.zip args).map
          fun pv => (pv.1.ident, (⟨pv.1.ident, pv.2⟩ : Variable))).reverse := by
  suffices h : ∀ (l : List (Variable × VarVal)) (E : Env),
      l.foldl (fun env pv => envInsert env pv.1.ident ⟨pv.1.ident, pv.2⟩) E
        = (l.map
            fun pv => (pv.1.ident, (⟨pv.1.ident, pv.2⟩ : Variable))).reverse
          ++ E by
    simpa using h (params.zip args) []
  intro l
  induction l with
  | nil => intro E; rfl
  | cons x xs ih =>
    intro E
    simp only [envInsert] at ih
    simp only [List.foldl_cons, envInsert, ih]
    simp

/-- In a map whose keys are pairwise distinct, lookup of a present
binding's key returns that binding. -/
theorem envGet_of_mem_nodup (e : Env) (k : String) (v : Variable)
    (hnd : (e.map Prod.fst).Nodup) (hm : (k, v) ∈ e) :
    envGet e k = some v := by
  induction e with
  | nil => cases hm
  | cons x xs ih =>
    obtain ⟨k', v'⟩ := x
    simp only [List.map_cons, List.nodup_cons] at hnd
    rcases List.mem_cons.mp hm with h | h
    · injection h with h1 h2
      subst h1
      subst h2
      simp [envGet]
    · have hk : k' ≠ k := fun he =>
        hnd.1 (he ▸ List.mem_map.mpr ⟨(k, v), h, rfl⟩)
      simp [envGet, hk, ih hnd.2 h]

/-- Positional binding: with pairwise-distinct parameter names, looking up
the i-th parameter's name in the freshly bound locals map yields exactly
the i-th evaluated argument. -/
theorem bindArgs_get (params : List Variable) (args : List VarVal)
    (hlen : params.length = args.length)
    (hnd : (params.map Variable.ident).Nodup)
    (i : Nat) (hi : i < params.length) (hi2 : i < args.length) :
    envGet (bindArgs params args) ((params.get ⟨i, hi⟩).ident)
      = some ⟨(params.get ⟨i, hi⟩).ident, args.get ⟨i, hi2⟩⟩ := by
  have hzlen : i < (params.zip args).length := by
    simp [List.length_zip]
    omega
  rw [bindArgs_eq_reverse]
  apply envGet_of_mem_nodup
  · have hkeys :
        (((params.zip args).map
            fun pv => (pv.1.ident, (⟨pv.1.ident, pv.2⟩ : Variable))).reverse).map
          Prod.fst
        = ((params.zip args).map fun pv => pv.1.ident).reverse := by
      simp [List.map_reverse]
    rw [hkeys, List.nodup_reverse]
    have : ((params.zip args).map fun pv => pv.1.ident)
        = ((params.zip args).map Prod.fst).map Variable.ident := by
      simp
    rw [this, List.map_fst_zip params args (le_of_eq hlen)]
    exact hnd
  · apply List.mem_reverse.mpr
    apply List.mem_map.mpr
    refine ⟨(params.get ⟨i, hi⟩, args.get ⟨i, hi2⟩), ?_, rfl⟩
    have hz : (params.zip args).get ⟨i, hzlen⟩
        = (params.get ⟨i, hi⟩, args.get ⟨i, hi2⟩) := by
      simp [List.get_eq_getElem, List.getElem_zip]
    exact hz ▸ List.get_mem (params.zip args) i hzlen

/-- C3: a call first evaluates all argument expressions left to right;
dispatch then consults the native table (invoking the native with no arity
check and returning its value as-is, even when a user function of the same
name exists), then the program's functions (where an argument count
differing from the declared parameter count fails with
`WrongNumberOfArguments` and matching arguments run the body in a fresh
positionally bound locals map), and a name found in neither place fails
with `UndefinedFunction(name)`. -/
theorem c3_call_dispatch (fuel : Nat) (program : Program)
    (buildins : Buildins) (pos : Nat) (name : String) (exprs : List Expr)
    (g l : Env) :
    (∀ vals g' l' f,
      evalArgs fuel program buildins exprs g l = (.ok vals, g', l') →
      buildinsGet buildins name = some f →
      eval (fuel + 1) program buildins (.mk pos (.Function name exprs)) g l
        = (.ok (f ⟨vals⟩), g', l')) ∧
    (∀ vals g' l' fn,
      evalArgs (fuel + 1) program buildins exprs g l = (.ok vals, g', l') →
      buildinsGet buildins name = none →
      progGet program name = some fn →
      vals.length ≠ fn.arguments.length →
      eval (fuel + 2) program buildins (.mk pos (.Function name exprs)) g l
        = (.err ⟨fn.position, .WrongNumberOfArguments fn.name⟩, g', l')) ∧
    (∀ vals g' l' fn,
      evalArgs (fuel + 1) program buildins exprs g l = (.ok vals, g', l') →
      buildinsGet buildins name = none →
      progGet program name = some fn →
      vals.length = fn.arguments.length →
      eval (fuel + 2) program buildins (.mk pos (.Function name exprs)) g l
        = ((eval_block fuel program buildins fn.block g'
              (bindArgs fn.arguments vals)).1,
           (eval_block fuel program buildins fn.block g'
              (bindArgs fn.arguments vals)).2.1, l')) ∧
    (∀ vals g' l',
      evalArgs fuel program buildins exprs g l = (.ok vals, g', l') →
      buildinsGet buildins name = none →
      progGet program name = none →
      eval (fuel + 1) program buildins (.mk pos (.Function name exprs)) g l
        = (.err ⟨pos, .UndefinedFunction name⟩, g', l')) ∧
    (∀ (params : List Variable) (vals : List VarVal)
      (_ : params.length = vals.length)
      (_ : (params.map Variable.ident).Nodup) (i : Nat)
      (hi : i < params.length) (hi2 : i < vals.length),
      envGet (bindArgs params vals) ((params.get ⟨i, hi⟩).ident)
        = some ⟨(params.get ⟨i, hi⟩).ident, vals.get ⟨i, hi2⟩⟩) := by
  refine ⟨?_, ?_, ?_, ?_, fun params vals hlen hnd i hi hi2 =>
    bindArgs_get params vals hlen hnd i hi hi2⟩
  · intro vals g' l' f ha hb
    simp [eval, ha, andThen, hb]
  · intro vals g' l' fn ha hb hp hlen
    simp only [eval, ha, andThen, hb, hp, eval_function, if_pos hlen]
  · intro vals g' l' fn ha hb hp hlen
    have hlen2 : ¬(ArgList.mk vals).args.length ≠ fn.arguments.length := by
      simpa using hlen
    simp only [eval, ha, andThen, hb, hp, eval_function, if_neg hlen2]
  · intro vals g' l' ha hb hp
    simp [eval, ha, andThen, hb, hp]

/-- Witness for C3: a native `"f"` is invoked directly on the evaluated
(empty) argument list and its return value is taken as-is. -/
theorem c3_call_dispatch_witness :
    eval 2 ⟨[]⟩ [("f", fun _ => VarVal.UNIT)]
        (.mk 0 (.Function "f" [])) [] []
      = (.ok .UNIT, [], []) :=
  (c3_call_dispatch 1 ⟨[]⟩ [("f", fun _ => VarVal.UNIT)] 0 "f" [] [] []).1
    [] [] [] (fun _ => VarVal.UNIT) rfl rfl

/-- `andThen` preserves the globals component when both its parts do. -/
theorem andThen_globals {α β : Type} (x : Res α × Env × Env)
    (f : α → Env → Env → Res β × Env × Env) (G : Env)
    (hx : x.2.1 = G) (hf : ∀ a l, (f a G l).2.1 = G) :
    (andThen x f).2.1 = G := by
  obtain ⟨r, g, l⟩ := x
  simp only at hx
  subst hx
  cases r <;> simp [andThen, hf]

/-- No evaluator function ever writes the globals map: whatever the
outcome (value, error, abort or exhausted fuel), the returned globals are
the ones passed in. -/
theorem globals_preserved (fuel : Nat) :
    (∀ program buildins e g l,
      (eval fuel program buildins e g l).2.1 = g) ∧
    (∀ program buildins es g l,
      (evalArgs fuel program buildins es g l).2.1 = g) ∧
    (∀ program buildins i g l pos,
      (eval_if fuel program buildins i g l pos).2.1 = g) ∧
    (∀ program buildins b g l,
      (eval_block fuel program buildins b g l).2.1 = g) ∧
    (∀ program buildins ss g l,
      (eval_stmts fuel program buildins ss g l).2.1 = g) ∧
    (∀ program buildins f args g,
      (eval_function fuel program buildins f args g).2 = g) := by
  induction fuel with
  | zero =>
    exact ⟨fun _ _ _ _ _ => rfl, fun _ _ _ _ _ => rfl,
      fun _ _ _ _ _ _ => rfl, fun _ _ _ _ _ => rfl,
      fun _ _ _ _ _ => rfl, fun _ _ _ _ _ => rfl⟩
  | succ fuel ih =>
    obtain ⟨ihe, iha, ihi, ihb, ihs, ihf⟩ := ih
    refine ⟨?_, ?_, ?_, ?_, ?_, ?_⟩
    · intro program buildins e g l
      obtain ⟨pos, et⟩ := e
      cases et with
      | Function name expr_list =>
        simp only [eval]
        apply andThen_globals _ _ _ (iha program buildins expr_list g l)
        intro a l'
        cases hb : buildinsGet buildins name with
        | some f => rfl
        | none =>
          simp only
          cases hp : progGet program name with
          | some f =>
            simp only
            rcases hfx : eval_function fuel program buildins f ⟨a⟩ g
              with ⟨r, g2⟩
            have h2 := ihf program buildins f ⟨a⟩ g
            rw [hfx] at h2
            simp only at h2
            subst h2
            rfl
          | none => rfl
      | Value n => rfl
      | Op lhs opc rhs =>
        simp only [eval]
        apply andThen_globals _ _ _ (ihe program buildins lhs g l)
        intro a l'
        apply andThen_globals _ _ _ (ihe program buildins rhs g l')
        intro b l''
        rfl
      | Var id =>
        simp only [eval]
        cases envGet g id with
        | some v => rfl
        | none =>
          cases envGet l id with
          | some v => rfl
          | none => rfl
      | If i =>
        exact ihi program buildins i g l pos
    · intro program buildins es g l
      cases es with
      | nil => rfl
      | cons e rest =>
        simp only [evalArgs]
        apply andThen_globals _ _ _ (ihe program buildins e g l)
        intro a l'
        apply andThen_globals _ _ _ (iha program buildins rest g l')
        intro b l''
        rfl
    · intro program buildins i g l pos
      obtain ⟨condition, if_block, else_part⟩ := i
      simp only [eval_if]
      apply andThen_globals _ _ _ (ihe program buildins condition g l)
      intro a l'
      rcases a with ⟨_ | v⟩ | ⟨_ | v⟩ | ⟨_ | v⟩ | _
      case BOOL.some =>
        cases v with
        | true => simpa using ihb program buildins if_block g l'
        | false =>
          cases else_part with
          | Else b => simpa using ihb program buildins b g l'
          | ElseIf next_if =>
            simpa using ihi program buildins next_if g l' pos
          | None => rfl
      all_goals rfl
    · intro program buildins b g l
      obtain ⟨statements, expr⟩ := b
      simp only [eval_block]
      apply andThen_globals _ _ _ (ihs program buildins statements g l)
      intro a l'
      exact ihe program buildins expr g l'
    · intro program buildins ss g l
      cases ss with
      | nil => rfl
      | cons stmt rest =>
        cases stmt with
        | Expr e =>
          simp only [eval_stmts]
          apply andThen_globals _ _ _ (ihe program buildins e g l)
          intro a l'
          exact ihs program buildins rest g l'
        | Asgn id e =>
          simp only [eval_stmts]
          apply andThen_globals _ _ _ (ihe program buildins e g l)
          intro a l'
          exact ihs program buildins rest g (envInsert l' id ⟨id, a⟩)
    · intro program buildins f args g
      simp only [eval_function]
      by_cases hc : args.args.length ≠ f.arguments.length
      · rw [if_pos hc]
      · rw [if_neg hc]
        rcases heb : eval_block fuel program buildins f.block g
          (bindArgs f.arguments args.args) with ⟨r, g2, l2⟩
        have h2 := ihb program buildins f.block g (bindArgs f.arguments args.args)
        rw [heb] at h2
        simp only at h2
        subst h2
        rfl

/-- C5: assignment statements insert or overwrite bindings only in the
per-invocation locals map, and no evaluation step writes to globals — the
globals map after `execute` returns (successfully or with an error) equals
the map passed in, and likewise around any single expression evaluation.
(Natives receive only the evaluated argument list, so they cannot touch
either map.) -/
theorem c5_globals_readonly (fuel : Nat) (program : Program)
    (buildins : Buildins) (g : Env) :
    (∀ e l, (eval fuel program buildins e g l).2.1 = g) ∧
    (execute fuel program g buildins).2 = g := by
  refine ⟨fun e l => (globals_preserved fuel).1 program buildins e g l, ?_⟩
  cases hp : progGet program "main" with
  | some main =>
    simpa [execute, hp] using
      (globals_preserved fuel).2.2.2.2.2 program buildins main ⟨[]⟩ g
  | none => simp [execute, hp]

end PraLang
